import Mathlib

/-!
# Verification of the foamCD persistent entity graph store

Shallow embedding of the core of `src/db.py` (class `EntityDatabase`) and
`src/entity.py` (class `Entity`), with theorems settling the specification
claims about the inheritance transitive-closure engine, the entity
repository, the declaration/definition linker and the change-detection
cache.

Modelling conventions:
* SQLite tables are lists of rows; `INSERT OR REPLACE` on a table with
  primary key K is modelled by removing every row with the same K and
  appending the new row (a replaced row gets a fresh rowid in SQLite, so
  it moves to the end in scan order, which the append reproduces).
* Python `str` values (uuids, names, paths) are `String`.
* Python's three access-specifier strings are the closed `AccessLevel` type.
* Unbounded Python recursion is modelled with an explicit `fuel` argument;
  returning `none` means the fuel was exhausted, i.e. the call stack of the
  Python original grew beyond the given bound.
* Where the Python code is a method of `EntityDatabase` defined twice in the
  class body, the second definition shadows the first, so the embedding
  follows the *second* occurrence (this affects `store_entity` and
  `_update_recursive_base_child_links`).
-/

/-- The access-specifier strings stored by `db.py`
(`'PUBLIC'`, `'PROTECTED'`, `'PRIVATE'`). -/
inductive AccessLevel where
  | PUBLIC
  | PROTECTED
  | PRIVATE
deriving DecidableEq, Repr

/-- The effective-access computation appearing (three times, verbatim) in
`_store_inheritance`, `_populate_base_child_links` and
`_update_recursive_base_child_links` of `db.py`:

    effective_access = access_level
    if ancestor_access == 'PRIVATE' or access_level == 'PRIVATE':
        effective_access = 'PRIVATE'
    elif ancestor_access == 'PROTECTED' or access_level == 'PROTECTED':
        effective_access = 'PROTECTED'
-/
def effectiveAccess (ancestorAccess accessLevel : AccessLevel) : AccessLevel :=
  if ancestorAccess = .PRIVATE ∨ accessLevel = .PRIVATE then .PRIVATE
  else if ancestorAccess = .PROTECTED ∨ accessLevel = .PROTECTED then .PROTECTED
  else accessLevel

/-- Restrictiveness rank used only to state the spec's `merge()` description:
PRIVATE over PROTECTED over PUBLIC (most restrictive wins).
This definition follows the SPEC's words, not the code; the code's
`effectiveAccess` is compared against it. -/
def specMergeRank : AccessLevel → Nat
  | .PUBLIC => 0
  | .PROTECTED => 1
  | .PRIVATE => 2

/-- Most-restrictive-wins merge, as the spec words it. -/
def specMerge (a b : AccessLevel) : AccessLevel :=
  if specMergeRank a ≥ specMergeRank b then a else b

/-- One row of the `base_child_links` table
(primary key `(base_uuid, child_uuid)`). -/
structure BCLink where
  base : String
  child : String
  direct : Bool
  depth : Nat
  access : AccessLevel
deriving DecidableEq, Repr

/-- One row of the `inheritance` table
(primary key `(class_uuid, base_name)`). -/
structure InhRow where
  classUuid : String
  className : String
  baseUuid : Option String
  baseName : String
  access : AccessLevel
  virtual : Bool
deriving DecidableEq, Repr

/-- `INSERT OR REPLACE INTO base_child_links`: drop any row with the same
`(base_uuid, child_uuid)` primary key, append the new row. -/
def bclReplace (links : List BCLink) (r : BCLink) : List BCLink :=
  links.filter (fun x => ¬(x.base = r.base ∧ x.child = r.child)) ++ [r]

/-- The database state the closure engine touches: the `entities` table
restricted to the columns it reads (`uuid`, `name`), the `inheritance`
table and the `base_child_links` table.  The embedding covers states whose
foreign keys are satisfied (every uuid mentioned has an `entities` row), as
the claims' scenarios do; on such states no SQLite constraint fires. -/
structure ClosureDB where
  entities : List (String × String)
  inheritance : List InhRow
  links : List BCLink
deriving DecidableEq, Repr

/-- The base-class dictionaries passed to `_store_inheritance`
(`base_class.get('uuid')`, `base_class['name']`,
`base_class.get('access', 'PUBLIC')`, `base_class.get('virtual', False)`). -/
structure BaseClassInfo where
  uuid : Option String
  name : String
  access : AccessLevel
  virtual : Bool
deriving DecidableEq, Repr

/-- The `for child_row in child_rows` loop of
`_update_recursive_base_child_links`, abstracted over the recursive call
`recf` so that the recursion lives entirely in `updateRecursiveLinks`.
For each direct child of `classUuid`: re-query `classUuid`'s ancestor rows
(the SQL `WHERE child_uuid = ? AND child_uuid != ?` compares the selected
column, equal to `classUuid`, with the child, so a self-child empties it),
insert merged indirect links from each ancestor to the child, then recurse
into the child. -/
def urlChildLoop (recf : List BCLink → String → Option (List BCLink)) :
    List BCLink → List BCLink → String → Option (List BCLink)
  | [], links, _ => some links
  | childRow :: rest, links, classUuid =>
    let childUuid := childRow.child
    let childAccess := childRow.access
    -- snapshot of the ancestors of classUuid
    let ancestors := links.filter
      (fun r => r.child = classUuid ∧ ¬(r.child = childUuid))
    let links1 := ancestors.foldl
      (fun ls row =>
        bclReplace ls ⟨row.base, childUuid, false, row.depth + 1,
          effectiveAccess row.access childAccess⟩)
      links
    match recf links1 childUuid with
    | none => none
    | some links2 => urlChildLoop recf rest links2 classUuid

/-- `EntityDatabase._update_recursive_base_child_links` (the second, effective
definition, db.py lines 620-660).  For the class `classUuid`: fetch the
snapshot of its direct children, then run `urlChildLoop` over it.  The Python
recursion is unbounded; `fuel` bounds it, `none` meaning the Python call
stack would have exceeded `fuel` frames. -/
def updateRecursiveLinks : Nat → List BCLink → String → Option (List BCLink)
  | 0, _, _ => none
  | fuel + 1, links, classUuid =>
    -- snapshot of the direct children of classUuid
    let childRows := links.filter (fun r => r.base = classUuid ∧ r.direct)
    urlChildLoop (fun ls u => updateRecursiveLinks fuel ls u) childRows links classUuid

/-- The body of the `for base_class in base_classes` loop of
`_store_inheritance`: append the `inheritance` row, and when the base uuid
is resolved insert the depth-1 direct link and a merged indirect link from
every existing ancestor of the base (snapshot taken after the direct
insert). -/
def storeInhStep (classUuid className : String)
    (acc : List InhRow × List BCLink) (b : BaseClassInfo) :
    List InhRow × List BCLink :=
  let inh := acc.1 ++
    [⟨classUuid, className, b.uuid, b.name, b.access, b.virtual⟩]
  match b.uuid with
  | some baseUuid =>
    let links := bclReplace acc.2 ⟨baseUuid, classUuid, true, 1, b.access⟩
    -- snapshot of the ancestors of the base
    let ancestors := links.filter (fun r => r.child = baseUuid)
    let links := ancestors.foldl
      (fun ls row =>
        bclReplace ls ⟨row.base, classUuid, false, row.depth + 1,
          effectiveAccess row.access b.access⟩)
      links
    (inh, links)
  | none => (inh, acc.2)

/-- `EntityDatabase._store_inheritance` (db.py lines 398-464) restricted to
its database effect on the success path: delete the class's `inheritance`
rows, re-read the class name, then run `storeInhStep` over the base-class
list; finally run the recursive forward propagation.  `fuel` bounds that
propagation as in `updateRecursiveLinks`. -/
def storeInheritance (fuel : Nat) (db : ClosureDB) (classUuid : String)
    (baseClasses : List BaseClassInfo) : Option ClosureDB :=
  let inh0 := db.inheritance.filter (fun r => ¬(r.classUuid = classUuid))
  let className :=
    match db.entities.find? (fun e => e.1 = classUuid) with
    | some e => e.2
    | none => "UnknownClass"
  let acc := baseClasses.foldl (storeInhStep classUuid className) (inh0, db.links)
  match updateRecursiveLinks fuel acc.2 classUuid with
  | none => none
  | some links => some ⟨db.entities, acc.1, links⟩

/-- Store two inheritance-carrying entities one after the other,
as two consecutive `store_entity` calls reaching `_store_inheritance` do. -/
def storeInheritance2 (db : ClosureDB)
    (c1 : String) (b1 : List BaseClassInfo)
    (c2 : String) (b2 : List BaseClassInfo) : Option ClosureDB :=
  (storeInheritance 10 db c1 b1).bind fun db1 => storeInheritance 10 db1 c2 b2

/-- Fresh store with entity rows for classes A, B, C and no inheritance data. -/
def chainDB : ClosureDB := ⟨[("A", "A"), ("B", "B"), ("C", "C")], [], []⟩

/-- Fresh store with entity rows for classes B, D, E and no inheritance data. -/
def reingestDB : ClosureDB := ⟨[("B", "B"), ("D", "D"), ("E", "E")], [], []⟩

/-- `base_child_links` state holding a single direct self-link: class A
recorded as its own direct base. -/
def selfLoopLinks : List BCLink := [⟨"A", "A", true, 1, .PUBLIC⟩]

/-- `base_child_links` state in which classes A and B are each recorded as a
direct base of the other (the spec's accidental-cycle example). -/
def mutualCycleLinks : List BCLink :=
  [⟨"A", "B", true, 1, .PUBLIC⟩, ⟨"B", "A", true, 1, .PUBLIC⟩]

/-- The forward propagation exhausts every stack bound on this state: the
Python original, which has no bound, recurses forever. -/
def urlDiverges (links : List BCLink) (classUuid : String) : Prop :=
  ∀ fuel, updateRecursiveLinks fuel links classUuid = none

/-- Fresh store with entity rows for classes A and B only. -/
def twoClassDB : ClosureDB := ⟨[("A", "A"), ("B", "B")], [], []⟩

/-- Ingest the cyclic edge set (B inherits A, A inherits B) once. -/
def cycleIngestOnce : Option ClosureDB :=
  storeInheritance2 twoClassDB "B" [⟨some "A", "A", .PUBLIC, false⟩]
    "A" [⟨some "B", "B", .PUBLIC, false⟩]

/-- Ingest the same cyclic edge set a second time. -/
def cycleIngestTwice : Option ClosureDB :=
  cycleIngestOnce.bind fun db =>
    storeInheritance2 db "B" [⟨some "A", "A", .PUBLIC, false⟩]
      "A" [⟨some "B", "B", .PUBLIC, false⟩]

/-- Store D deriving publicly from B, then re-store D deriving publicly
from E instead (re-ingestion with a changed base list). -/
def reingestResult : Option ClosureDB :=
  storeInheritance2 reingestDB "D" [⟨some "B", "B", .PUBLIC, false⟩]
    "D" [⟨some "E", "E", .PUBLIC, false⟩]

/-- A SQLite connection as `store_entity` sees it: the rows visible to
concurrent readers (`committed`) and the working state of the open
transaction (`current`).  `conn.commit()` publishes `current`;
`conn.rollback()` discards everything since the last commit.  Rows are the
`entities` columns the transactional claims read: `(uuid, parent_uuid)`. -/
structure Conn where
  committed : List (String × Option String)
  current : List (String × Option String)
deriving DecidableEq, Repr

/-- `INSERT OR REPLACE INTO entities` keyed by `uuid`. -/
def upsertEntityRow (rows : List (String × Option String)) (u : String)
    (p : Option String) : List (String × Option String) :=
  rows.filter (fun r => ¬(r.1 = u)) ++ [(u, p)]

/-- `self.conn.rollback()`. -/
def rollbackConn (c : Conn) : Conn := ⟨c.committed, c.committed⟩

/-- `self.conn.commit()`. -/
def commitConn (c : Conn) : Conn := ⟨c.current, c.current⟩

/-- An entity dictionary restricted to the fields the transactional claims
read: `uuid`, `parent_uuid` (`entity.get('parent_uuid', None)`, so an absent
key and an explicit `None` coincide) and the `children` list. -/
inductive ETree where
  | mk (uuid : String) (parentUuid : Option String) (children : List ETree)

/-- The `for child in children` loop at the end of the effective
`store_entity` (db.py lines 856-859): store each child in turn with the
recursive call `recf`; the first raised error propagates and stops the
loop.  Note the loop passes each child dictionary through unchanged — the
effective definition stamps no parent uuid onto it. -/
def storeChildLoop (recf : Conn → ETree → Option (Conn × Option String)) :
    Conn → List ETree → Option (Conn × Option String)
  | conn, [] => some (conn, none)
  | conn, c :: cs =>
    match recf conn c with
    | none => none
    | some (conn1, some e) => some (conn1, some e)
    | some (conn1, none) => storeChildLoop recf conn1 cs

/-- `EntityDatabase.store_entity` (the second, effective definition, db.py
lines 786-872), restricted to its transactional skeleton: insert the entity
row, recursively store the children, commit; on a `sqlite3.Error` roll back
and re-raise.  `failOn u = true` injects a storage-layer error at the row
insert for uuid `u` (e.g. a constraint violation).  The result is the
connection after the call together with the surfaced error, if any
(`none` for the whole result means the recursion exceeded `fuel` frames).
The sub-record helpers the skeleton elides either re-raise into the same
handler (documentation, features, custom fields) or swallow their errors
internally (method/class classification, inheritance) — nothing they do
commits, so eliding them only removes further error sources. -/
def storeEntity (failOn : String → Bool) :
    Nat → Conn → ETree → Option (Conn × Option String)
  | 0, _, _ => none
  | fuel + 1, conn, .mk u p cs =>
    if failOn u then some (rollbackConn conn, some u)
    else
      let conn1 : Conn := ⟨conn.committed, upsertEntityRow conn.current u p⟩
      match storeChildLoop (fun cn t => storeEntity failOn fuel cn t) conn1 cs with
      | none => none
      | some (conn2, some e) => some (rollbackConn conn2, some e)
      | some (conn2, none) => some (commitConn conn2, none)

/-- A fresh connection on an empty store. -/
def emptyConn : Conn := ⟨[], []⟩

/-- Error oracle failing exactly on uuid c2. -/
def failOnC2 : String → Bool := fun u => u = "c2"

/-- Error oracle that never fails. -/
def neverFail : String → Bool := fun _ => false

/-- Parent p with two children; storing the second child will fail under
`failOnC2`. -/
def twoChildTree : ETree := .mk "p" none [.mk "c1" (some "p") [], .mk "c2" (some "p") []]

/-- Parent P with one child that carries no parent reference. -/
def noParentChildTree : ETree := .mk "P" none [.mk "C" none []]

/-- Parent P with one child lacking a parent reference and one child
carrying one. -/
def mixedChildrenTree : ETree :=
  .mk "P" none [.mk "C" none [], .mk "D" (some "P") []]

/-- The `files` table: one row `(path, last_modified, hash)`,
primary key `path`. -/
abbrev FilesTable : Type := List (String × Int × String)

/-- `EntityDatabase.track_file` (db.py lines 1136-1155):
`INSERT OR REPLACE INTO files` keyed by path, then commit. -/
def trackFile (files : FilesTable) (p : String) (m : Int) (h : String) :
    FilesTable :=
  files.filter (fun r => ¬(r.1 = p)) ++ [(p, m, h)]

/-- `EntityDatabase.file_changed` (db.py lines 1157-1182): select the row for
the path; `True` when absent, else `True` iff the stored modification time or
the stored hash differs from the arguments. -/
def fileChanged (files : FilesTable) (p : String) (m : Int) (h : String) :
    Bool :=
  match files.find? (fun r => r.1 = p) with
  | none => true
  | some r => r.2.1 != m || r.2.2 != h

/-- The state the declaration/definition linker touches: the uuids present
in the `entities` table and the `decl_def_links` table (primary key
`(decl_uuid, def_uuid)`, both columns foreign keys into `entities`). -/
structure LinkDB where
  entities : List String
  links : List (String × String)
deriving DecidableEq, Repr

/-- `EntityDatabase.link_declaration_definition` (db.py lines 1403-1422):
`INSERT OR IGNORE INTO decl_def_links`, commit, return `True`; a conflicting
primary key makes the insert a silent no-op, while a foreign-key violation
(an end not present in `entities`) raises, is caught, and `False` is
returned with nothing written. -/
def linkDeclDef (db : LinkDB) (d f : String) : LinkDB × Bool :=
  if (d, f) ∈ db.links then (db, true)
  else if d ∈ db.entities ∧ f ∈ db.entities then
    (⟨db.entities, db.links ++ [(d, f)]⟩, true)
  else (db, false)

/-- `EntityDatabase.get_entity_definitions` (db.py lines 1424-1448): select
the def uuids linked to the declaration, resolving each through
`get_entity_by_uuid`, which drops uuids without an `entities` row. -/
def getEntityDefinitions (db : LinkDB) (d : String) : List String :=
  ((db.links.filter (fun l => l.1 = d)).map (fun l => l.2)).filter
    (fun u => u ∈ db.entities)

/-- `EntityDatabase.get_entity_declaration` (db.py lines 1450-1471): fetch
the first link row with the given def uuid and resolve its decl uuid through
`get_entity_by_uuid` (`none` when that entity row is absent). -/
def getEntityDeclaration (db : LinkDB) (f : String) : Option String :=
  match db.links.find? (fun l => l.2 = f) with
  | none => none
  | some l => if l.1 ∈ db.entities then some l.1 else none

/-- The database state the bulk rebuild touches: `entities` restricted to
`(uuid, name, kind)`, the `inheritance` table and the `base_child_links`
table. -/
structure RebuildDB where
  entities : List (String × String × String)
  inheritance : List InhRow
  links : List BCLink
deriving DecidableEq, Repr

/-- The class-like kinds accepted by the rebuild's name lookup
(db.py line 542). -/
def classLikeKinds : List String := ["CLASS_DECL", "CLASS_TEMPLATE", "STRUCT_DECL"]

/-- Pass 1 loop body of `_populate_base_child_links` (db.py lines 534-579),
processing one row of the snapshot `SELECT ... FROM inheritance WHERE
base_uuid IS NOT NULL`.  The accumulator carries the (updatable)
`inheritance` table, the `base_child_links` table and the `direct_relations`
list.  Python's `if not base_uuid:` resolution branch fires only for a
falsy-but-non-null identifier, i.e. the empty string, because the SQL
filter already removed the NULL rows; a row whose resolution fails, whose
class uuid is falsy, or whose endpoints lack `entities` rows is skipped. -/
def populateStep1 (entities : List (String × String × String))
    (acc : List InhRow × List BCLink × List (String × String × AccessLevel))
    (row : InhRow) :
    List InhRow × List BCLink × List (String × String × AccessLevel) :=
  match row.baseUuid with
  | none => acc
  | some b0 =>
    let resolved :=
      if b0 = "" then
        match entities.find?
            (fun e => e.2.1 = row.baseName ∧ e.2.2 ∈ classLikeKinds) with
        | some e => some e.1
        | none => none
      else some b0
    match resolved with
    | none => acc
    | some b =>
      let inh :=
        if b0 = "" then
          acc.1.map (fun r =>
            if r.classUuid = row.classUuid ∧ r.baseName = row.baseName then
              ⟨r.classUuid, r.className, some b, r.baseName, r.access, r.virtual⟩
            else r)
        else acc.1
      if row.classUuid = "" then (inh, acc.2.1, acc.2.2)
      else if (entities.find? (fun e => e.1 = b)).isNone then (inh, acc.2.1, acc.2.2)
      else if (entities.find? (fun e => e.1 = row.classUuid)).isNone then
        (inh, acc.2.1, acc.2.2)
      else
        (inh, bclReplace acc.2.1 ⟨b, row.classUuid, true, 1, row.access⟩,
          acc.2.2 ++ [(b, row.classUuid, row.access)])

/-- Pass 2 loop body of `_populate_base_child_links` (db.py lines 583-608):
for the direct relation `(base, child, access)`, take the snapshot of the
base's ancestor rows and insert a merged indirect link from each ancestor to
the child. -/
def populateStep2 (links : List BCLink)
    (rel : String × String × AccessLevel) : List BCLink :=
  let ancestors := links.filter (fun r => r.child = rel.1)
  ancestors.foldl
    (fun ls row =>
      bclReplace ls ⟨row.base, rel.2.1, false, row.depth + 1,
        effectiveAccess row.access rel.2.2⟩)
    links

/-- `EntityDatabase._populate_base_child_links` (db.py lines 499-618): when
the `base_child_links` table is empty, run pass 1 over the snapshot of
non-null-base `inheritance` rows and then pass 2 over the collected direct
relations; otherwise do nothing. -/
def populateBaseChildLinks (db : RebuildDB) : RebuildDB :=
  if db.links.length = 0 then
    let rows := db.inheritance.filter (fun r => ¬(r.baseUuid = none))
    let acc := rows.foldl (populateStep1 db.entities) (db.inheritance, db.links, [])
    let links := acc.2.2.foldl populateStep2 acc.2.1
    ⟨db.entities, acc.1, links⟩
  else db

/-- Store state for the rebuild scenario: class B recorded as inheriting
from base name C with a NULL base identifier, while an entity row for a
class C (kind CLASS_DECL) exists; the closure table is empty. -/
def nullBaseDB : RebuildDB :=
  ⟨[("Bu", "B", "CLASS_DECL"), ("Cu", "C", "CLASS_DECL")],
   [⟨"Bu", "B", none, "C", .PUBLIC, false⟩], []⟩

/-- The same scenario with the falsy-but-non-null base identifier
(empty string) instead of NULL. -/
def emptyStrBaseDB : RebuildDB :=
  ⟨[("Bu", "B", "CLASS_DECL"), ("Cu", "C", "CLASS_DECL")],
   [⟨"Bu", "B", some "", "C", .PUBLIC, false⟩], []⟩

/-- The fields `Entity._generate_uuid` (entity.py lines 146-153) reads: the
entity's name, the kind tag (`self.kind.name`, drawn from the closed
`CursorKind` set), the source span (file plus start/end line/column, the
file nullable as in the `Entity` constructor, positions as the nonnegative
ints the front-end supplies), and the parent's uuid when a parent carrying
a uuid is attached. -/
@[ext]
structure EntityFields where
  name : String
  kind : String
  file : Option String
  line : Nat
  column : Nat
  endLine : Nat
  endColumn : Nat
  parentUuid : Option String
deriving DecidableEq, Repr

/-- Python f-string rendering of the nullable file field:
`None` renders as the four letters "None". -/
def pyStrOptFile : Option String → String
  | none => "None"
  | some s => s

/-- The content string hashed by `_generate_uuid`:

    content = f"(name):(kind.name):(file):(line):(column):(end_line):(end_column)"
    if self.parent and hasattr(self.parent, 'uuid'):
        content += f":(parent.uuid)"

The identifier itself is the SHA-256 hex digest of this string, so two
entities receive the identical identifier whenever their content strings
are equal, and distinct identifiers require distinct content strings. -/
def uuidContent (e : EntityFields) : String :=
  e.name ++ ":" ++ e.kind ++ ":" ++ pyStrOptFile e.file ++ ":" ++
    Nat.repr e.line ++ ":" ++ Nat.repr e.column ++ ":" ++
    Nat.repr e.endLine ++ ":" ++ Nat.repr e.endColumn ++
    (match e.parentUuid with
     | some p => ":" ++ p
     | none => "")

/-- Numeric value of a decimal digit character. -/
def decDigitVal (c : Char) : Nat := c.toNat - 48

/-- Decimal digits of `n`, most significant first — the specification of
what `Nat.toDigitsCore` produces. -/
def decRevChars (n : Nat) : List Char :=
  if h : n / 10 = 0 then [Nat.digitChar (n % 10)]
  else decRevChars (n / 10) ++ [Nat.digitChar (n % 10)]
decreasing_by
  exact Nat.div_lt_self (Nat.pos_of_ne_zero fun hn => h (by simp [hn])) (by norm_num)

/-- Value of a most-significant-first decimal digit string. -/
def listDecVal (l : List Char) : Nat :=
  l.foldl (fun a c => 10 * a + decDigitVal c) 0

/-- Renderability condition on the file field under which the content
string determines it: colon-free and not the literal text "None" (a `None`
file also renders as "None"). -/
def fileFieldOk : Option String → Prop
  | none => True
  | some s => ':' ∉ s.data ∧ s ≠ "None"

/-- An `entities` row restricted to the columns `clear_file_entities` and
the cascade read: `uuid`, `file` (nullable) and `parent_uuid` (nullable,
`ON DELETE CASCADE` foreign key into `entities`). -/
structure ERow where
  uuid : String
  file : Option String
  parent : Option String
deriving DecidableEq, Repr

/-- Store state for `clear_file_entities`: the `entities` table plus one
representative owned sub-record table keyed by entity uuid, standing for
the tables declared `ON DELETE CASCADE` on `entity_uuid`
(features join, classifications, docs, custom fields, closure and decl-def
links).  The embedding covers foreign-key-satisfied states, where every
non-null parent uuid has an `entities` row. -/
structure FileStore where
  entities : List ERow
  subRecords : List (String × String)
deriving DecidableEq, Repr

/-- Whether a row's parent reference points into the deleted set. -/
def parentDead (dead : List String) : Option String → Bool
  | some q => q ∈ dead
  | none => false

/-- One round of SQLite's cascade: the uuids of rows not yet deleted whose
parent row has just been deleted. -/
def newDead (rows : List ERow) (dead : List String) : List String :=
  (rows.filter (fun r => r.uuid ∉ dead ∧ parentDead dead r.parent = true)).map
    (fun r => r.uuid)

/-- Iterate the cascade to a fixpoint (fuel-bounded; `rows.length + 1`
rounds always suffice, as each productive round deletes a fresh uuid). -/
def deadClosure : Nat → List ERow → List String → List String
  | 0, _, dead => dead
  | fuel + 1, rows, dead =>
    if newDead rows dead = [] then dead
    else deadClosure fuel rows (dead ++ newDead rows dead)

/-- `DELETE FROM entities WHERE uuid = ?` under `PRAGMA foreign_keys = ON`:
the row and, transitively, all rows whose parent chain reaches it are
removed, together with their owned sub-records. -/
def deleteEntityCascade (st : FileStore) (u : String) : FileStore :=
  let dead := deadClosure (st.entities.length + 1) st.entities [u]
  ⟨st.entities.filter (fun r => r.uuid ∉ dead),
   st.subRecords.filter (fun s => s.1 ∉ dead)⟩

/-- `EntityDatabase.clear_file_entities` (db.py lines 1205-1222): snapshot
the parentless entities of the file, then delete each by uuid (the cascade
doing the rest). -/
def clearFileEntities (st : FileStore) (p : String) : FileStore :=
  let roots := (st.entities.filter
    (fun r => r.file = some p ∧ r.parent = none)).map (fun r => r.uuid)
  roots.foldl deleteEntityCascade st

/-- Reachability downward from a seed set of uuids along parent references —
the specification of what one cascade delete removes. -/
inductive ReachDead (rows : List ERow) (seeds : List String) : String → Prop where
  | seed : ∀ u, u ∈ seeds → ReachDead rows seeds u
  | child : ∀ r q, r ∈ rows → r.parent = some q → ReachDead rows seeds q →
      ReachDead rows seeds r.uuid

/-- The uuids `clear_file_entities p` is specified to remove: the parentless
entities whose file is `p`, together with their transitive children. -/
inductive CascadeDoomed (rows : List ERow) (p : String) : String → Prop where
  | root : ∀ r, r ∈ rows → r.file = some p → r.parent = none →
      CascadeDoomed rows p r.uuid
  | child : ∀ r q, r ∈ rows → r.parent = some q → CascadeDoomed rows p q →
      CascadeDoomed rows p r.uuid

/-- Count of row uuids not yet deleted — the termination measure of the
cascade iteration. -/
def notDeadCount (rows : List ERow) (dead : List String) : Nat :=
  ((rows.map (fun r => r.uuid)).dedup.filter (fun u => u ∉ dead)).length

/-- A store with roots R (file f.H) and K (file g.H), a child C of R in
g.H, and a sub-record owned by C. -/
def c10Store : FileStore :=
  ⟨[⟨"R", some "f.H", none⟩, ⟨"C", some "g.H", some "R"⟩, ⟨"K", some "g.H", none⟩],
   [("C", "doc")]⟩

/-! ## Helper lemmas -/

/-- Decimal digit characters are not the colon separator. -/
theorem digitChar_ne_colon (m : Nat) (h : m < 10) : Nat.digitChar m ≠ ':' := by
  interval_cases m <;> decide

/-- A decimal rendering contains no colon. -/
theorem colon_not_mem_decRevChars (n : Nat) : ':' ∉ decRevChars n := by
  induction n using Nat.strong_induction_on with
  | _ n ih =>
    rw [decRevChars]
    split
    · intro hmem
      simp at hmem
      exact digitChar_ne_colon _ (Nat.mod_lt _ (by norm_num)) hmem.symm
    · rename_i h0
      intro hmem
      rcases List.mem_append.mp hmem with hm | hm
      · exact ih (n / 10)
          (Nat.div_lt_self (Nat.pos_of_ne_zero fun hn => h0 (by simp [hn])) (by norm_num)) hm
      · simp at hm
        exact digitChar_ne_colon _ (Nat.mod_lt _ (by norm_num)) hm.symm

/-- `decDigitVal` inverts `Nat.digitChar` on decimal digits. -/
theorem decDigitVal_digitChar (m : Nat) (h : m < 10) :
    decDigitVal (Nat.digitChar m) = m := by
  interval_cases m <;> rfl

/-- `listDecVal` inverts `decRevChars`. -/
theorem listDecVal_decRevChars (n : Nat) : listDecVal (decRevChars n) = n := by
  induction n using Nat.strong_induction_on with
  | _ n ih =>
    rw [decRevChars]
    split
    · rename_i h0
      have hn : n < 10 := by omega
      have h1 : n % 10 = n := Nat.mod_eq_of_lt hn
      simp only [listDecVal, List.foldl]
      rw [h1, decDigitVal_digitChar _ hn]
      omega
    · rename_i h0
      have hlt : n / 10 < n :=
        Nat.div_lt_self (Nat.pos_of_ne_zero fun hn => h0 (by simp [hn])) (by norm_num)
      have hih := ih (n / 10) hlt
      simp only [listDecVal, List.foldl_append, List.foldl] at hih ⊢
      rw [hih, decDigitVal_digitChar _ (Nat.mod_lt _ (by norm_num))]
      omega

/-- Core's fueled digit loop agrees with `decRevChars` when the fuel
exceeds the number. -/
theorem toDigitsCore_eq_decRevChars (f : Nat) :
    ∀ (n : Nat) (l : List Char), n < f →
      Nat.toDigitsCore 10 f n l = decRevChars n ++ l := by
  induction f with
  | zero => intro n l h; exact absurd h (Nat.not_lt_zero n)
  | succ f ih =>
    intro n l h
    simp only [Nat.toDigitsCore]
    split
    · rename_i h0
      rw [decRevChars]
      simp [h0]
    · rename_i h0
      have hf : n / 10 < f := by omega
      rw [ih (n / 10) (Nat.digitChar (n % 10) :: l) hf]
      conv_rhs => rw [decRevChars]
      rw [dif_neg h0]
      simp

/-- The characters of `Nat.repr n` are `decRevChars n`. -/
theorem repr_data_eq_decRevChars (n : Nat) :
    (Nat.repr n).data = decRevChars n := by
  show (Nat.toDigits 10 n).asString.data = decRevChars n
  rw [Nat.toDigits, toDigitsCore_eq_decRevChars (n + 1) n [] (Nat.lt_succ_self n)]
  simp [List.asString]

/-- Decimal renderings are colon-free. -/
theorem colon_not_mem_repr (n : Nat) : ':' ∉ (Nat.repr n).data := by
  rw [repr_data_eq_decRevChars]
  exact colon_not_mem_decRevChars n

/-- Decimal rendering of naturals is injective. -/
theorem natRepr_inj (m n : Nat) (h : Nat.repr m = Nat.repr n) : m = n := by
  have hd : decRevChars m = decRevChars n := by
    have h2 := congrArg String.data h
    rwa [repr_data_eq_decRevChars, repr_data_eq_decRevChars] at h2
  calc m = listDecVal (decRevChars m) := (listDecVal_decRevChars m).symm
    _ = listDecVal (decRevChars n) := by rw [hd]
    _ = n := listDecVal_decRevChars n

/-- Cancellation for colon-joined strings with colon-free heads. -/
theorem append_colon_cancel :
    ∀ (a b x y : List Char), ':' ∉ a → ':' ∉ b →
      a ++ ':' :: x = b ++ ':' :: y → a = b ∧ x = y := by
  intro a
  induction a with
  | nil =>
    intro b x y _ hb h
    cases b with
    | nil => simpa using h
    | cons c bs =>
      simp only [List.nil_append, List.cons_append, List.cons.injEq] at h
      exact absurd (List.mem_cons_self c bs) (h.1 ▸ hb)
  | cons c as ih =>
    intro b x y ha hb h
    cases b with
    | nil =>
      simp only [List.nil_append, List.cons_append, List.cons.injEq] at h
      exact absurd (List.mem_cons_self c as) (h.1 ▸ ha)
    | cons c' bs =>
      simp only [List.cons_append, List.cons.injEq] at h
      have hta : ':' ∉ as := fun hm => ha (List.mem_cons_of_mem c hm)
      have htb : ':' ∉ bs := fun hm => hb (List.mem_cons_of_mem c' hm)
      obtain ⟨hab, hxy⟩ := ih bs x y hta htb h.2
      exact ⟨by rw [h.1, hab], hxy⟩

/-- Cancellation for the trailing optional `":" + parent.uuid` suffix: a
present parent adds a seventh colon, so a suffix-less content never equals
one with a parent, and present parents are recovered verbatim. -/
theorem append_optParent_cancel (a b : List Char) (x y : Option String)
    (ha : ':' ∉ a) (hb : ':' ∉ b)
    (h : (a ++ match x with | some p => ':' :: p.data | none => []) =
         (b ++ match y with | some p => ':' :: p.data | none => [])) :
    a = b ∧ x = y := by
  cases x with
  | none =>
    cases y with
    | none => simpa using h
    | some q =>
      exfalso
      simp only [List.append_nil] at h
      apply ha
      rw [h]
      exact List.mem_append.mpr (Or.inr (List.mem_cons_self ':' q.data))
  | some p =>
    cases y with
    | none =>
      exfalso
      simp only [List.append_nil] at h
      apply hb
      rw [← h]
      exact List.mem_append.mpr (Or.inr (List.mem_cons_self ':' p.data))
    | some q =>
      obtain ⟨hab, hpq⟩ := append_colon_cancel a b p.data q.data ha hb h
      exact ⟨hab, by rw [String.ext hpq]⟩

/-- The character list underlying the hashed content string. -/
theorem uuidContent_data (e : EntityFields) :
    (uuidContent e).data =
      e.name.data ++ ':' :: (e.kind.data ++ ':' :: ((pyStrOptFile e.file).data ++
        ':' :: ((Nat.repr e.line).data ++ ':' :: ((Nat.repr e.column).data ++
        ':' :: ((Nat.repr e.endLine).data ++ ':' :: ((Nat.repr e.endColumn).data ++
        (match e.parentUuid with
         | some p => ':' :: p.data
         | none => []))))))) := by
  cases hp : e.parentUuid with
  | none => simp [uuidContent, hp, String.data_append]
  | some p => simp [uuidContent, hp, String.data_append]

/-- On renderable file fields the rendering is injective. -/
theorem pyStrOptFile_inj (f f' : Option String)
    (hf : fileFieldOk f) (hf' : fileFieldOk f')
    (h : (pyStrOptFile f).data = (pyStrOptFile f').data) : f = f' := by
  cases f with
  | none =>
    cases f' with
    | none => rfl
    | some s =>
      simp only [pyStrOptFile] at h
      exact absurd (String.ext h).symm hf'.2
  | some s =>
    cases f' with
    | none =>
      simp only [pyStrOptFile] at h
      exact absurd (String.ext h) hf.2
    | some s' =>
      simp only [pyStrOptFile] at h
      rw [String.ext h]

/-- A renderable file field renders colon-free. -/
theorem colonFree_pyStrOptFile (f : Option String) (hf : fileFieldOk f) :
    ':' ∉ (pyStrOptFile f).data := by
  cases f with
  | none => decide
  | some s => exact hf.1

/-- On colon-free names/kinds and renderable file fields, the content
string determines every field. -/
theorem uuidContent_inj (e e' : EntityFields)
    (hn : ':' ∉ e.name.data) (hn' : ':' ∉ e'.name.data)
    (hk : ':' ∉ e.kind.data) (hk' : ':' ∉ e'.kind.data)
    (hf : fileFieldOk e.file) (hf' : fileFieldOk e'.file)
    (h : uuidContent e = uuidContent e') : e = e' := by
  have hd := congrArg String.data h
  rw [uuidContent_data, uuidContent_data] at hd
  obtain ⟨h1, hd⟩ := append_colon_cancel _ _ _ _ hn hn' hd
  obtain ⟨h2, hd⟩ := append_colon_cancel _ _ _ _ hk hk' hd
  obtain ⟨h3, hd⟩ := append_colon_cancel _ _ _ _
    (colonFree_pyStrOptFile _ hf) (colonFree_pyStrOptFile _ hf') hd
  obtain ⟨h4, hd⟩ := append_colon_cancel _ _ _ _
    (colon_not_mem_repr _) (colon_not_mem_repr _) hd
  obtain ⟨h5, hd⟩ := append_colon_cancel _ _ _ _
    (colon_not_mem_repr _) (colon_not_mem_repr _) hd
  obtain ⟨h6, hd⟩ := append_colon_cancel _ _ _ _
    (colon_not_mem_repr _) (colon_not_mem_repr _) hd
  obtain ⟨h7, h8⟩ := append_optParent_cancel _ _ _ _
    (colon_not_mem_repr _) (colon_not_mem_repr _) hd
  exact EntityFields.ext (String.ext h1) (String.ext h2)
    (pyStrOptFile_inj _ _ hf hf' h3) (natRepr_inj _ _ (String.ext h4))
    (natRepr_inj _ _ (String.ext h5)) (natRepr_inj _ _ (String.ext h6))
    (natRepr_inj _ _ (String.ext h7)) h8

/-- After `track_file`, the stored row for the path is exactly the tracked
triple. -/
theorem find?_trackFile (files : FilesTable) (p : String) (m : Int) (h : String) :
    (trackFile files p m h).find? (fun r => r.1 = p) = some (p, m, h) := by
  unfold trackFile
  rw [List.find?_append]
  have h1 : (files.filter (fun r => ¬(r.1 = p))).find? (fun r => r.1 = p) = none := by
    rw [List.find?_eq_none]
    intro x hx
    have := List.of_mem_filter hx
    simpa using this
  rw [h1]
  simp

/-- The first component of folding `storeInhStep` is the accumulated
`inheritance` table followed by one freshly built row per base class. -/
theorem foldl_storeInhStep_fst (c n : String) (bs : List BaseClassInfo) :
    ∀ acc : List InhRow × List BCLink,
      (bs.foldl (storeInhStep c n) acc).1 =
        acc.1 ++ bs.map (fun b => ⟨c, n, b.uuid, b.name, b.access, b.virtual⟩) := by
  induction bs with
  | nil => intro acc; simp
  | cons b bs ih =>
    intro acc
    rw [List.foldl_cons, ih]
    cases h : b.uuid <;> simp [storeInhStep, h]

/-- After `_store_inheritance` succeeds, every `inheritance` row of the
stored class names one of the bases just passed in: the old direct-edge
rows of the class really are deleted. -/
theorem storeInheritance_inh_rows (fuel : Nat) (db : ClosureDB)
    (c : String) (bs : List BaseClassInfo) (res : ClosureDB)
    (h : storeInheritance fuel db c bs = some res) :
    ∀ r ∈ res.inheritance, r.classUuid = c → r.baseName ∈ bs.map BaseClassInfo.name := by
  intro r hr hc
  simp only [storeInheritance] at h
  split at h
  · exact absurd h (by simp)
  · rename_i links hurl
    injection h with h
    subst h
    rw [foldl_storeInhStep_fst] at hr
    rcases List.mem_append.mp hr with hold | hnew
    · have := List.of_mem_filter hold
      simp at this
      exact absurd hc this
    · rcases List.mem_map.mp hnew with ⟨b, hb, hbr⟩
      rw [← hbr]
      exact List.mem_map.mpr ⟨b, hb, rfl⟩

/-! ## Claim theorems: inheritance closure engine -/

/-- C1: the closure engine's access merge is most-restrictive-wins (PRIVATE
over PROTECTED over PUBLIC), and the two claimed chain scenarios hold in
either ingestion order.  Storing A deriving publicly from B and B deriving
privately from C yields the direct rows (B,A,depth 1,PUBLIC) and
(C,B,depth 1,PRIVATE) and the indirect row (C,A,depth 2,PRIVATE); storing A
deriving protected from B and B deriving publicly from C yields the indirect
row (C,A,depth 2,PROTECTED). -/
theorem c1_closure_access_most_restrictive :
    (∀ a b : AccessLevel, effectiveAccess a b = specMerge a b) ∧
    (storeInheritance2 chainDB "B" [⟨some "C", "C", .PRIVATE, false⟩]
        "A" [⟨some "B", "B", .PUBLIC, false⟩]).map ClosureDB.links =
      some [⟨"C", "B", true, 1, .PRIVATE⟩, ⟨"B", "A", true, 1, .PUBLIC⟩,
            ⟨"C", "A", false, 2, .PRIVATE⟩] ∧
    (storeInheritance2 chainDB "A" [⟨some "B", "B", .PUBLIC, false⟩]
        "B" [⟨some "C", "C", .PRIVATE, false⟩]).map ClosureDB.links =
      some [⟨"B", "A", true, 1, .PUBLIC⟩, ⟨"C", "B", true, 1, .PRIVATE⟩,
            ⟨"C", "A", false, 2, .PRIVATE⟩] ∧
    (storeInheritance2 chainDB "B" [⟨some "C", "C", .PUBLIC, false⟩]
        "A" [⟨some "B", "B", .PROTECTED, false⟩]).map ClosureDB.links =
      some [⟨"C", "B", true, 1, .PUBLIC⟩, ⟨"B", "A", true, 1, .PROTECTED⟩,
            ⟨"C", "A", false, 2, .PROTECTED⟩] ∧
    (storeInheritance2 chainDB "A" [⟨some "B", "B", .PROTECTED, false⟩]
        "B" [⟨some "C", "C", .PUBLIC, false⟩]).map ClosureDB.links =
      some [⟨"B", "A", true, 1, .PROTECTED⟩, ⟨"C", "B", true, 1, .PUBLIC⟩,
            ⟨"C", "A", false, 2, .PROTECTED⟩] :=
  ⟨fun a b => by cases a <;> cases b <;> rfl,
   by decide, by decide, by decide, by decide⟩

/-- C3 counterexample: after storing D deriving from B and then re-storing D
deriving from E instead, the closure link (B,D,direct,depth 1) derived from
the base edge D no longer has is still present (only E is a base of D in
the re-stored direct-edge table), contradicting the claim that such links
are deleted first. -/
theorem c3_counterexample_stale_closure_link :
    reingestResult.map ClosureDB.links =
      some [⟨"B", "D", true, 1, .PUBLIC⟩, ⟨"E", "D", true, 1, .PUBLIC⟩] ∧
    reingestResult.map (fun db => db.inheritance.map InhRow.baseName) =
      some ["E"] :=
  ⟨by decide, by decide⟩

/-- C3 amended: on re-store of an entity D with a base list,
`_store_inheritance` deletes every row of the direct-edge `inheritance`
table in which D is the derived class (so only the new bases remain there),
but it deletes no `base_child_links` closure row: closure rows for the new
bases are written with insert-or-replace, and a closure row derived from a
base edge D no longer has survives re-ingestion. -/
theorem c3_amended_only_edge_table_cleared :
    (∀ (fuel : Nat) (db : ClosureDB) (c : String) (bs : List BaseClassInfo)
        (res : ClosureDB), storeInheritance fuel db c bs = some res →
      ∀ r ∈ res.inheritance, r.classUuid = c →
        r.baseName ∈ bs.map BaseClassInfo.name) ∧
    storeInheritance 10 reingestDB "D" [⟨some "B", "B", .PUBLIC, false⟩] =
      some ⟨[("B", "B"), ("D", "D"), ("E", "E")],
        [⟨"D", "D", some "B", "B", .PUBLIC, false⟩],
        [⟨"B", "D", true, 1, .PUBLIC⟩]⟩ ∧
    reingestResult =
      some ⟨[("B", "B"), ("D", "D"), ("E", "E")],
        [⟨"D", "D", some "E", "E", .PUBLIC, false⟩],
        [⟨"B", "D", true, 1, .PUBLIC⟩, ⟨"E", "D", true, 1, .PUBLIC⟩]⟩ :=
  ⟨storeInheritance_inh_rows, by decide, by decide⟩

/-- C3 amended witness: the general conjunct applied to the concrete
re-ingestion of D with base E. -/
theorem c3_amended_witness :
    ∀ r ∈ (ClosureDB.mk [("B", "B"), ("D", "D"), ("E", "E")]
        [⟨"D", "D", some "E", "E", .PUBLIC, false⟩]
        [⟨"B", "D", true, 1, .PUBLIC⟩, ⟨"E", "D", true, 1, .PUBLIC⟩]).inheritance,
      r.classUuid = "D" →
        r.baseName ∈ ([⟨some "E", "E", .PUBLIC, false⟩] :
          List BaseClassInfo).map BaseClassInfo.name :=
  c3_amended_only_edge_table_cleared.1 10
    ⟨[("B", "B"), ("D", "D"), ("E", "E")],
      [⟨"D", "D", some "B", "B", .PUBLIC, false⟩],
      [⟨"B", "D", true, 1, .PUBLIC⟩]⟩
    "D" [⟨some "E", "E", .PUBLIC, false⟩] _ (by decide)

/-- C5 counterexample: the claim asserts forward propagation terminates for
every input because a per-pass visited set prevents infinite recursion; no
visited set exists in `_update_recursive_base_child_links`, and on a store
state holding the cyclic direct link (A,A) the propagation exhausts every
call-stack bound, i.e. the unbounded Python original recurses forever. -/
theorem c5_counterexample_self_link_diverges : urlDiverges selfLoopLinks "A" := by
  intro fuel
  induction fuel with
  | zero => rfl
  | succ n ih =>
    have h : updateRecursiveLinks (n + 1) selfLoopLinks "A" =
        (match updateRecursiveLinks n selfLoopLinks "A" with
         | none => none
         | some links2 =>
           urlChildLoop (fun ls u => updateRecursiveLinks n ls u) [] links2 "A") := rfl
    rw [h, ih]

/-- C5 amended: forward propagation has no visited set; it does terminate on
the claim's example state (two classes each recorded as a direct base of the
other), because insert-or-replace demotes the direct flags and breaks the
cycle, and repeated re-ingestion of the same cyclic edge set through
`_store_inheritance` keeps the closure key set and row count unchanged
(only stored depths keep growing); but a direct self-link diverges
(see the counterexample). -/
theorem c5_amended_cycle_behaviour :
    updateRecursiveLinks 10 mutualCycleLinks "A" =
      some [⟨"A", "A", false, 2, .PUBLIC⟩, ⟨"B", "A", false, 3, .PUBLIC⟩,
            ⟨"A", "B", false, 3, .PUBLIC⟩, ⟨"B", "B", false, 4, .PUBLIC⟩] ∧
    cycleIngestOnce.map (fun db => db.links.map fun r => (r.base, r.child)) =
      some [("B", "B"), ("A", "B"), ("B", "A"), ("A", "A")] ∧
    cycleIngestTwice.map (fun db => db.links.map fun r => (r.base, r.child)) =
      some [("B", "B"), ("A", "B"), ("B", "A"), ("A", "A")] ∧
    cycleIngestTwice.map (fun db => db.links.length) =
      cycleIngestOnce.map (fun db => db.links.length) :=
  ⟨by decide, by decide, by decide, by decide⟩

/-! ## Claim theorems: store_entity transaction semantics -/

/-- C2 counterexample: storing a parent with children c1, c2 where the row
insert of c2 raises a storage error.  The error is surfaced, but each
recursive child call issued its own `self.conn.commit()`, so the parent row
and the c1 subtree were already published before the failure: the reader
afterwards sees the rows (p) and (c1), contradicting the claim that no
entity row or child row written by the call is visible. -/
theorem c2_counterexample_partial_subtree_visible :
    storeEntity failOnC2 10 emptyConn twoChildTree =
      some (⟨[("p", none), ("c1", some "p")], [("p", none), ("c1", some "p")]⟩,
        some "c2") := by
  decide

/-- C2 amended: a storage-layer error during a row insert anywhere in the
tree is surfaced to the caller, and the transaction is rolled back to the
*last commit* (after an error the connection holds no uncommitted writes);
but `store_entity` commits once per recursive child call, so rows committed
by completed child subtrees — including the parent row committed alongside
the first child — remain visible to readers. -/
theorem c2_amended_rollback_reaches_last_commit_only :
    (∀ (failOn : String → Bool) (fuel : Nat) (conn : Conn) (t : ETree)
        (conn2 : Conn) (e : String),
      storeEntity failOn fuel conn t = some (conn2, some e) →
        conn2.current = conn2.committed) ∧
    (storeEntity failOnC2 10 emptyConn twoChildTree).map
        (fun r => (r.1.committed, r.2)) =
      some ([("p", none), ("c1", some "p")], some "c2") := by
  constructor
  · intro failOn fuel conn t conn2 e h
    cases fuel with
    | zero => simp [storeEntity] at h
    | succ n =>
      cases t with
      | mk u p cs =>
        simp only [storeEntity] at h
        split at h
        · simp only [Option.some.injEq, Prod.mk.injEq] at h
          rw [← h.1]
          rfl
        · split at h
          · exact absurd h (by simp)
          · simp only [Option.some.injEq, Prod.mk.injEq] at h
            rw [← h.1]
            rfl
          · simp only [Option.some.injEq, Prod.mk.injEq] at h
            exact absurd h.2 (by simp)
  · decide

/-- C2 amended witness: the general rollback conjunct applied to the
concrete failing ingestion of `twoChildTree`. -/
theorem c2_amended_witness :
    (Conn.mk [("p", none), ("c1", some "p")] [("p", none), ("c1", some "p")]).current =
      (Conn.mk [("p", none), ("c1", some "p")] [("p", none), ("c1", some "p")]).committed :=
  c2_amended_rollback_reaches_last_commit_only.1 failOnC2 10 emptyConn twoChildTree
    ⟨[("p", none), ("c1", some "p")], [("p", none), ("c1", some "p")]⟩ "c2" (by decide)

/-- C9 counterexample: the effective `store_entity` stores a child that
lacks a parent reference with a NULL `parent_uuid` — storing P whose child C
carries no parent reference leaves the committed child row (C, NULL),
contradicting the claim that every child row stored through a parent ends up
with a non-null parent reference. -/
theorem c9_counterexample_child_row_null_parent :
    (storeEntity neverFail 10 emptyConn noParentChildTree).map
        (fun r => (r.1.committed, r.2)) =
      some ([("P", none), ("C", none)], none) := by
  decide

/-- C9 amended: the effective `store_entity` passes each child dictionary
through unchanged: a child that already carries a parent reference keeps it,
and a child that lacks one is stored with a NULL parent reference (only the
first, shadowed definition of `store_entity` stamped the enclosing entity's
uuid onto parentless children). -/
theorem c9_amended_children_stored_as_given :
    (storeEntity neverFail 10 emptyConn mixedChildrenTree).map
        (fun r => (r.1.committed, r.2)) =
      some ([("P", none), ("C", none), ("D", some "P")], none) := by
  decide

/-! ## Claim theorems: change tracker and decl-def linker -/

/-- C7: `file_changed(path, mtime, hash)` is true exactly when the path has
no stored row or the stored modification time or hash differs; in
particular it is true for an untracked path, false immediately after
`track_file` with the identical pair, and true when the hash differs while
the modification time is unchanged. -/
theorem c7_file_changed_semantics :
    (∀ (files : FilesTable) (p : String) (m : Int) (h : String),
      fileChanged files p m h = true ↔
        (files.find? (fun r => r.1 = p) = none ∨
          ∃ r, files.find? (fun r => r.1 = p) = some r ∧
            (r.2.1 ≠ m ∨ r.2.2 ≠ h))) ∧
    (∀ (files : FilesTable) (p : String) (m : Int) (h : String),
      files.find? (fun r => r.1 = p) = none → fileChanged files p m h = true) ∧
    (∀ (files : FilesTable) (p : String) (m : Int) (h : String),
      fileChanged (trackFile files p m h) p m h = false) ∧
    (∀ (files : FilesTable) (p : String) (m : Int) (h h2 : String),
      h2 ≠ h → fileChanged (trackFile files p m h) p m h2 = true) := by
  refine ⟨?_, ?_, ?_, ?_⟩
  · intro files p m h
    cases hf : files.find? (fun r => r.1 = p) with
    | none => simp [fileChanged, hf]
    | some r => simp [fileChanged, hf, bne_iff_ne]
  · intro files p m h hf
    simp [fileChanged, hf]
  · intro files p m h
    simp [fileChanged, find?_trackFile]
  · intro files p m h h2 hne
    simp [fileChanged, find?_trackFile, bne_iff_ne]
    exact Ne.symm hne

/-- C7 witness: the untracked, tracked-identical and hash-differs cases at a
concrete path. -/
theorem c7_witness :
    fileChanged [] "a.H" 5 "h1" = true ∧
    fileChanged (trackFile [] "a.H" 5 "h1") "a.H" 5 "h1" = false ∧
    fileChanged (trackFile [] "a.H" 5 "h1") "a.H" 5 "h2" = true :=
  ⟨c7_file_changed_semantics.2.1 [] "a.H" 5 "h1" rfl,
   c7_file_changed_semantics.2.2.1 [] "a.H" 5 "h1",
   c7_file_changed_semantics.2.2.2 [] "a.H" 5 "h1" "h2" (by decide)⟩

/-- C8: declaration-definition linking is idempotent (re-linking a present
pair changes nothing), and after linking declaration X to definitions Y and
Z (all three entities present, no earlier links touching them),
`get_entity_definitions X` returns exactly Y and Z while
`get_entity_declaration` maps both Y and Z back to X. -/
theorem c8_decl_def_link_round_trip :
    (∀ (db : LinkDB) (d f : String),
      (linkDeclDef (linkDeclDef db d f).1 d f).1 = (linkDeclDef db d f).1) ∧
    (∀ (db : LinkDB) (X Y Z : String),
      X ∈ db.entities → Y ∈ db.entities → Z ∈ db.entities → Y ≠ Z →
      (∀ f, (X, f) ∉ db.links) → (∀ d, (d, Y) ∉ db.links) →
      (∀ d, (d, Z) ∉ db.links) →
      getEntityDefinitions ((linkDeclDef (linkDeclDef db X Y).1 X Z).1) X = [Y, Z] ∧
      getEntityDeclaration ((linkDeclDef (linkDeclDef db X Y).1 X Z).1) Y = some X ∧
      getEntityDeclaration ((linkDeclDef (linkDeclDef db X Y).1 X Z).1) Z = some X) := by
  constructor
  · intro db d f
    by_cases h1 : (d, f) ∈ db.links
    · simp [linkDeclDef, h1]
    · by_cases h2 : d ∈ db.entities ∧ f ∈ db.entities
      · simp [linkDeclDef, h1, h2]
      · simp [linkDeclDef, h1, h2]
  · intro db X Y Z hX hY hZ hYZ hXf hdY hdZ
    have e1 : linkDeclDef db X Y = (⟨db.entities, db.links ++ [(X, Y)]⟩, true) := by
      simp [linkDeclDef, hXf Y, hX, hY]
    have hnot2 : (X, Z) ∉ db.links ++ [(X, Y)] := by
      intro hmem
      rcases List.mem_append.mp hmem with hin | hin
      · exact hXf Z hin
      · simp at hin
        exact hYZ hin.symm
    have e2 : linkDeclDef (⟨db.entities, db.links ++ [(X, Y)]⟩ : LinkDB) X Z =
        (⟨db.entities, (db.links ++ [(X, Y)]) ++ [(X, Z)]⟩, true) := by
      simp [linkDeclDef, hnot2, hX, hZ]
    rw [e1, e2]
    have hfil : db.links.filter (fun l => l.1 = X) = [] := by
      rw [List.filter_eq_nil_iff]
      intro l hl
      simp only [decide_eq_true_eq]
      intro hx
      apply hXf l.2
      have hxx : (X, l.2) = l := by rw [← hx]
      rw [hxx]; exact hl
    have hfY : db.links.find? (fun l => l.2 = Y) = none := by
      rw [List.find?_eq_none]
      intro l hl
      simp only [decide_eq_true_eq]
      intro hy
      apply hdY l.1
      have hxx : (l.1, Y) = l := by rw [← hy]
      rw [hxx]; exact hl
    have hfZ : db.links.find? (fun l => l.2 = Z) = none := by
      rw [List.find?_eq_none]
      intro l hl
      simp only [decide_eq_true_eq]
      intro hz
      apply hdZ l.1
      have hxx : (l.1, Z) = l := by rw [← hz]
      rw [hxx]; exact hl
    refine ⟨?_, ?_, ?_⟩
    · simp [getEntityDefinitions, List.filter_append, hfil, hY, hZ]
    · simp [getEntityDeclaration, List.find?_append, hfY, hX]
    · simp [getEntityDeclaration, List.find?_append, hfZ, hX, hYZ]

/-- C8 witness: the round trip on a fresh three-entity store. -/
theorem c8_witness :
    getEntityDefinitions
        ((linkDeclDef (linkDeclDef ⟨["X", "Y", "Z"], []⟩ "X" "Y").1 "X" "Z").1)
        "X" = ["Y", "Z"] ∧
    getEntityDeclaration
        ((linkDeclDef (linkDeclDef ⟨["X", "Y", "Z"], []⟩ "X" "Y").1 "X" "Z").1)
        "Y" = some "X" ∧
    getEntityDeclaration
        ((linkDeclDef (linkDeclDef ⟨["X", "Y", "Z"], []⟩ "X" "Y").1 "X" "Z").1)
        "Z" = some "X" :=
  c8_decl_def_link_round_trip.2 ⟨["X", "Y", "Z"], []⟩ "X" "Y" "Z"
    (by decide) (by decide) (by decide) (by decide)
    (fun f h => by simp at h) (fun d h => by simp at h) (fun d h => by simp at h)

/-- C6: evaluation at the failing input.  The bulk rebuild's SQL filter
`WHERE base_uuid IS NOT NULL` excludes exactly the rows the claim (and the
in-branch log message about NULL base identifiers) is about: with an
inheritance row for B whose base identifier is NULL and whose base name C
matches an existing CLASS_DECL entity, the rebuild resolves nothing and
inserts no depth-1 link — the store is returned unchanged.  The dead
resolution branch is reachable only for a falsy-but-non-null identifier:
the same row with an empty-string base identifier is resolved by name
lookup to Cu and receives the claimed depth-1 direct link. -/
theorem c6_null_base_rows_skipped_by_rebuild :
    populateBaseChildLinks nullBaseDB = nullBaseDB ∧
    populateBaseChildLinks emptyStrBaseDB =
      ⟨[("Bu", "B", "CLASS_DECL"), ("Cu", "C", "CLASS_DECL")],
       [⟨"Bu", "B", some "Cu", "C", .PUBLIC, false⟩],
       [⟨"Cu", "Bu", true, 1, .PUBLIC⟩]⟩ :=
  ⟨by decide, by decide⟩

/-! ## Claim theorems: identifier generation -/

/-- C4 counterexample: two entities that agree on everything except the
file field — one has no file (Python `None`), the other the literal file
name "None" — produce the identical content string, and hence the identical
SHA-256 identifier, refuting "changing any one of these fields yields a
different identifier". -/
theorem c4_counterexample_none_file_collision :
    uuidContent ⟨"A", "CLASS_DECL", none, 1, 2, 3, 4, none⟩ =
      uuidContent ⟨"A", "CLASS_DECL", some "None", 1, 2, 3, 4, none⟩ ∧
    (⟨"A", "CLASS_DECL", none, 1, 2, 3, 4, none⟩ : EntityFields) ≠
      ⟨"A", "CLASS_DECL", some "None", 1, 2, 3, 4, none⟩ :=
  ⟨rfl, by decide⟩

/-- C4 amended: the identifier is a pure function of exactly (name, kind,
file, start line/column, end line/column, parent identifier) — entities
agreeing on all these fields receive the identical identifier; in the other
direction, changing a field changes the hashed content whenever the
rendered fields are unambiguous, i.e. name and kind are colon-free and the
file field is colon-free and not the literal text "None"; without that
proviso two different field tuples can render to the same content (file
`None` versus the string "None"). -/
theorem c4_amended_identifier_determinism_and_injectivity :
    (∀ e e' : EntityFields, e.name = e'.name → e.kind = e'.kind →
      e.file = e'.file → e.line = e'.line → e.column = e'.column →
      e.endLine = e'.endLine → e.endColumn = e'.endColumn →
      e.parentUuid = e'.parentUuid → uuidContent e = uuidContent e') ∧
    (∀ e e' : EntityFields,
      ':' ∉ e.name.data → ':' ∉ e'.name.data →
      ':' ∉ e.kind.data → ':' ∉ e'.kind.data →
      fileFieldOk e.file → fileFieldOk e'.file →
      uuidContent e = uuidContent e' → e = e') := by
  constructor
  · intro e e' h1 h2 h3 h4 h5 h6 h7 h8
    unfold uuidContent
    rw [h1, h2, h3, h4, h5, h6, h7, h8]
  · exact uuidContent_inj

/-- C4 amended witness: both conjuncts at concrete entities. -/
theorem c4_amended_witness :
    uuidContent ⟨"A", "CLASS_DECL", some "a.H", 1, 2, 3, 4, some "P"⟩ =
      uuidContent ⟨"A", "CLASS_DECL", some "a.H", 1, 2, 3, 4, some "P"⟩ ∧
    (⟨"A", "CLASS_DECL", some "a.H", 1, 2, 3, 4, some "P"⟩ : EntityFields) =
      ⟨"A", "CLASS_DECL", some "a.H", 1, 2, 3, 4, some "P"⟩ :=
  ⟨c4_amended_identifier_determinism_and_injectivity.1 _ _
      rfl rfl rfl rfl rfl rfl rfl rfl,
   c4_amended_identifier_determinism_and_injectivity.2 _ _
      (by decide) (by decide) (by decide) (by decide)
      ⟨by decide, by decide⟩ ⟨by decide, by decide⟩ rfl⟩

/-! ## Cascade-delete lemmas -/

/-- Removing the filter target from more elements can only shrink a filter. -/
theorem length_filter_le_of_imp {α : Type} (l : List α) (p q : α → Bool)
    (himp : ∀ a ∈ l, q a = true → p a = true) :
    (l.filter q).length ≤ (l.filter p).length := by
  induction l with
  | nil => simp
  | cons a as ih =>
    have himp' : ∀ b ∈ as, q b = true → p b = true :=
      fun b hb => himp b (List.mem_cons_of_mem a hb)
    have hih := ih himp'
    by_cases hq : q a = true
    · have hp := himp a (List.mem_cons_self a as) hq
      simp [List.filter_cons, hq, hp]
      omega
    · have hq' : q a = false := by revert hq; cases q a <;> simp
      by_cases hp : p a = true
      · simp [List.filter_cons, hq', hp]
        omega
      · have hp' : p a = false := by revert hp; cases p a <;> simp
        simp [List.filter_cons, hq', hp']
        omega

/-- A filter shrinks strictly when some element satisfies the weaker but not
the stronger predicate. -/
theorem length_filter_lt_of_witness {α : Type} (l : List α) (p q : α → Bool) :
    ∀ x ∈ l, p x = true → q x = false →
      (∀ a ∈ l, q a = true → p a = true) →
      (l.filter q).length < (l.filter p).length := by
  induction l with
  | nil => intro x hx; cases hx
  | cons a as ih =>
    intro x hx hpx hqx himp
    have himp' : ∀ b ∈ as, q b = true → p b = true :=
      fun b hb => himp b (List.mem_cons_of_mem a hb)
    rcases List.mem_cons.mp hx with rfl | hxas
    · have hle := length_filter_le_of_imp as p q himp'
      simp [List.filter_cons, hpx, hqx]
      omega
    · have hlt := ih x hxas hpx hqx himp'
      by_cases hq : q a = true
      · have hp := himp a (List.mem_cons_self a as) hq
        simp [List.filter_cons, hq, hp]
        omega
      · have hq' : q a = false := by revert hq; cases q a <;> simp
        by_cases hp : p a = true
        · simp [List.filter_cons, hq', hp]
          omega
        · have hp' : p a = false := by revert hp; cases p a <;> simp
          simp [List.filter_cons, hq', hp']
          omega

/-- The cascade iteration never resurrects a deleted uuid. -/
theorem subset_deadClosure (fuel : Nat) (rows : List ERow) (dead : List String) :
    ∀ u ∈ dead, u ∈ deadClosure fuel rows dead := by
  induction fuel generalizing dead with
  | zero => intro u hu; exact hu
  | succ fuel ih =>
    intro u hu
    rw [deadClosure]
    split
    · exact hu
    · exact ih (dead ++ newDead rows dead) u (List.mem_append.mpr (Or.inl hu))

/-- Reachability from a seed set each of whose elements is reachable. -/
theorem reachDead_mono_seed (rows : List ERow) (s1 s2 : List String)
    (hsub : ∀ v ∈ s2, ReachDead rows s1 v) :
    ∀ u, ReachDead rows s2 u → ReachDead rows s1 u := by
  intro u h
  induction h with
  | seed v hv => exact hsub v hv
  | child r q hr hq _ ih => exact ReachDead.child r q hr hq ih

/-- Every uuid a cascade round adds is reachable from the deleted set. -/
theorem mem_newDead_reach (rows : List ERow) (dead : List String) :
    ∀ u ∈ newDead rows dead, ReachDead rows dead u := by
  intro u hu
  obtain ⟨r, hr, hru⟩ := List.mem_map.mp hu
  have hrf := List.of_mem_filter hr
  have hrmem := List.mem_of_mem_filter hr
  simp only [decide_eq_true_eq, Bool.and_eq_true] at hrf
  obtain ⟨-, hpar⟩ := hrf
  cases hp : r.parent with
  | none => rw [hp] at hpar; simp [parentDead] at hpar
  | some q =>
    rw [hp] at hpar
    simp only [parentDead, decide_eq_true_eq] at hpar
    exact hru ▸ ReachDead.child r q hrmem hp (ReachDead.seed q hpar)

/-- Everything the cascade iteration deletes is reachable from the seeds. -/
theorem deadClosure_sound (fuel : Nat) (rows : List ERow) (dead : List String) :
    ∀ u ∈ deadClosure fuel rows dead, ReachDead rows dead u := by
  induction fuel generalizing dead with
  | zero => intro u hu; exact ReachDead.seed u hu
  | succ fuel ih =>
    intro u hu
    rw [deadClosure] at hu
    split at hu
    · exact ReachDead.seed u hu
    · have h2 := ih (dead ++ newDead rows dead) u hu
      apply reachDead_mono_seed rows dead _ _ u h2
      intro v hv
      rcases List.mem_append.mp hv with h | h
      · exact ReachDead.seed v h
      · exact mem_newDead_reach rows dead v h

/-- With fuel exceeding the number of undeleted uuids, the cascade
iteration reaches a fixpoint: its result admits no further round. -/
theorem deadClosure_closed (fuel : Nat) (rows : List ERow) :
    ∀ dead : List String, notDeadCount rows dead < fuel →
      newDead rows (deadClosure fuel rows dead) = [] := by
  induction fuel with
  | zero => intro dead h; omega
  | succ fuel ih =>
    intro dead h
    rw [deadClosure]
    split
    · rename_i hnil; exact hnil
    · rename_i hne
      apply ih
      have hwit : ∃ u, u ∈ newDead rows dead := by
        cases hnd : newDead rows dead with
        | nil => exact absurd hnd hne
        | cons a l => exact ⟨a, hnd ▸ List.mem_cons_self a l⟩
      obtain ⟨u0, hu0⟩ := hwit
      have hu0dedup : u0 ∈ (rows.map (fun r => r.uuid)).dedup := by
        obtain ⟨r, hr, hru⟩ := List.mem_map.mp hu0
        exact List.mem_dedup.mpr (List.mem_map.mpr ⟨r, List.mem_of_mem_filter hr, hru⟩)
      have hu0not : u0 ∉ dead := by
        obtain ⟨r, hr, hru⟩ := List.mem_map.mp hu0
        have hrf := List.of_mem_filter hr
        simp only [Bool.and_eq_true, decide_eq_true_eq] at hrf
        exact hru ▸ hrf.1
      have hlt : notDeadCount rows (dead ++ newDead rows dead) < notDeadCount rows dead := by
        simp only [notDeadCount]
        apply length_filter_lt_of_witness _ _ _ u0 hu0dedup
        · simp [hu0not]
        · simp [List.mem_append, hu0]
        · intro a ha hq
          simp only [decide_eq_true_eq] at hq ⊢
          intro hadead
          exact hq (List.mem_append.mpr (Or.inl hadead))
      omega

/-- A child-closed superset of the seeds contains everything reachable. -/
theorem reachDead_subset_closed (rows : List ERow) (seed D : List String)
    (hseed : ∀ u ∈ seed, u ∈ D)
    (hclosed : newDead rows D = []) :
    ∀ u, ReachDead rows seed u → u ∈ D := by
  intro u h
  induction h with
  | seed v hv => exact hseed v hv
  | child r q hr hpq _ ih =>
    by_contra hnot
    have hmem : r.uuid ∈ newDead rows D := by
      apply List.mem_map.mpr
      refine ⟨r, ?_, rfl⟩
      apply List.mem_filter.mpr
      refine ⟨hr, ?_⟩
      simp only [Bool.and_eq_true, decide_eq_true_eq]
      exact ⟨hnot, by simp [parentDead, hpq, ih]⟩
    rw [hclosed] at hmem
    cases hmem

/-- The cascade iteration with the standard fuel computes exactly
reachability from the seeds. -/
theorem deadClosure_mem_iff (rows : List ERow) (dead : List String) (u : String) :
    u ∈ deadClosure (rows.length + 1) rows dead ↔ ReachDead rows dead u := by
  constructor
  · exact deadClosure_sound _ _ _ u
  · intro h
    refine reachDead_subset_closed rows dead _ (subset_deadClosure _ _ _) ?_ u h
    apply deadClosure_closed
    have h1 : notDeadCount rows dead ≤ (rows.map (fun r => r.uuid)).dedup.length :=
      List.length_filter_le _ _
    have h2 : (rows.map (fun r => r.uuid)).dedup.length ≤
        (rows.map (fun r => r.uuid)).length :=
      (List.dedup_sublist _).length_le
    have h3 : (rows.map (fun r => r.uuid)).length = rows.length :=
      List.length_map _ _
    omega

/-- One `DELETE ... WHERE uuid = t` removes exactly the rows (and owned
sub-records) reachable from `t`. -/
theorem deleteEntityCascade_mem (st : FileStore) (t : String) :
    (∀ r : ERow, r ∈ (deleteEntityCascade st t).entities ↔
      (r ∈ st.entities ∧ ¬ ReachDead st.entities [t] r.uuid)) ∧
    (∀ s : String × String, s ∈ (deleteEntityCascade st t).subRecords ↔
      (s ∈ st.subRecords ∧ ¬ ReachDead st.entities [t] s.1)) := by
  constructor
  · intro r
    simp [deleteEntityCascade, List.mem_filter, deadClosure_mem_iff]
  · intro s
    simp [deleteEntityCascade, List.mem_filter, deadClosure_mem_iff]

/-- Reachability is monotone in the row set. -/
theorem reachDead_mono_rows (rows rows' : List ERow)
    (hsub : ∀ r : ERow, r ∈ rows' → r ∈ rows) (seeds : List String) :
    ∀ u, ReachDead rows' seeds u → ReachDead rows seeds u := by
  intro u h
  induction h with
  | seed v hv => exact ReachDead.seed v hv
  | child r q hr hpq _ ih => exact ReachDead.child r q (hsub r hr) hpq ih

/-- Reachability from an extended seed list splits. -/
theorem reachDead_append_iff (rows : List ERow) (R : List String) (t : String) :
    ∀ u, ReachDead rows (R ++ [t]) u ↔
      (ReachDead rows R u ∨ ReachDead rows [t] u) := by
  intro u
  constructor
  · intro h
    induction h with
    | seed v hv =>
      rcases List.mem_append.mp hv with h | h
      · exact Or.inl (ReachDead.seed v h)
      · exact Or.inr (ReachDead.seed v h)
    | child r q hr hpq _ ih =>
      rcases ih with h | h
      · exact Or.inl (ReachDead.child r q hr hpq h)
      · exact Or.inr (ReachDead.child r q hr hpq h)
  · intro h
    rcases h with h | h
    · exact reachDead_mono_seed rows (R ++ [t]) R
        (fun v hv => ReachDead.seed v (List.mem_append.mpr (Or.inl hv))) u h
    · exact reachDead_mono_seed rows (R ++ [t]) [t]
        (fun v hv => ReachDead.seed v (List.mem_append.mpr (Or.inr hv))) u h

/-- A reachability chain in the full row set survives in the filtered row
set as long as its endpoint is not itself already condemned: condemnation
is child-closed, so an untouched endpoint means an untouched chain. -/
theorem reachDead_transfer_aux (rows rows' : List ERow) (R : List String)
    (hmem : ∀ r : ERow, r ∈ rows' ↔ (r ∈ rows ∧ ¬ ReachDead rows R r.uuid))
    (t : String) :
    ∀ u, ReachDead rows [t] u → ¬ ReachDead rows R u → ReachDead rows' [t] u := by
  intro u h
  induction h with
  | seed v hv => exact fun _ => ReachDead.seed v hv
  | child r q hr hpq hq ih =>
    intro hnr
    have hnq : ¬ ReachDead rows R q := fun hq' => hnr (ReachDead.child r q hr hpq hq')
    exact ReachDead.child r q ((hmem r).mpr ⟨hr, hnr⟩) hpq (ih hnq)

/-- Nothing is reachable from an empty seed list. -/
theorem not_reachDead_nil (rows : List ERow) : ∀ u, ¬ ReachDead rows [] u := by
  intro u h
  induction h with
  | seed v hv => exact absurd hv (List.not_mem_nil v)
  | child _ _ _ _ _ ih => exact ih

/-- Folding single-uuid cascade deletes accumulates reachability from all
processed seeds, measured against the original row set. -/
theorem foldl_cascade_mem (orig : FileStore) :
    ∀ (ts : List String) (st : FileStore) (R : List String),
      (∀ r : ERow, r ∈ st.entities ↔
        (r ∈ orig.entities ∧ ¬ ReachDead orig.entities R r.uuid)) →
      (∀ s : String × String, s ∈ st.subRecords ↔
        (s ∈ orig.subRecords ∧ ¬ ReachDead orig.entities R s.1)) →
      (∀ r : ERow, r ∈ (ts.foldl deleteEntityCascade st).entities ↔
        (r ∈ orig.entities ∧ ¬ ReachDead orig.entities (R ++ ts) r.uuid)) ∧
      (∀ s : String × String, s ∈ (ts.foldl deleteEntityCascade st).subRecords ↔
        (s ∈ orig.subRecords ∧ ¬ ReachDead orig.entities (R ++ ts) s.1)) := by
  intro ts
  induction ts with
  | nil =>
    intro st R h1 h2
    simp only [List.foldl_nil, List.append_nil]
    exact ⟨h1, h2⟩
  | cons t ts ih =>
    intro st R h1 h2
    have hsubrows : ∀ r : ERow, r ∈ st.entities → r ∈ orig.entities :=
      fun r hr => ((h1 r).mp hr).1
    have htrans : ∀ u, ¬ ReachDead orig.entities R u →
        (ReachDead st.entities [t] u ↔ ReachDead orig.entities [t] u) := by
      intro u hu
      constructor
      · exact reachDead_mono_rows orig.entities st.entities hsubrows [t] u
      · exact fun h => reachDead_transfer_aux orig.entities st.entities R h1 t u h hu
    have step1 : ∀ r : ERow, r ∈ (deleteEntityCascade st t).entities ↔
        (r ∈ orig.entities ∧ ¬ ReachDead orig.entities (R ++ [t]) r.uuid) := by
      intro r
      rw [(deleteEntityCascade_mem st t).1 r]
      constructor
      · rintro ⟨hr, hnr⟩
        obtain ⟨hro, hnR⟩ := (h1 r).mp hr
        refine ⟨hro, ?_⟩
        rw [reachDead_append_iff]
        rintro (h | h)
        · exact hnR h
        · exact hnr ((htrans r.uuid hnR).mpr h)
      · rintro ⟨hro, hnRt⟩
        rw [reachDead_append_iff] at hnRt
        push_neg at hnRt
        obtain ⟨hnR, hnt⟩ := hnRt
        exact ⟨(h1 r).mpr ⟨hro, hnR⟩, fun hst => hnt ((htrans r.uuid hnR).mp hst)⟩
    have step2 : ∀ s : String × String, s ∈ (deleteEntityCascade st t).subRecords ↔
        (s ∈ orig.subRecords ∧ ¬ ReachDead orig.entities (R ++ [t]) s.1) := by
      intro s
      rw [(deleteEntityCascade_mem st t).2 s]
      constructor
      · rintro ⟨hs, hnr⟩
        obtain ⟨hso, hnR⟩ := (h2 s).mp hs
        refine ⟨hso, ?_⟩
        rw [reachDead_append_iff]
        rintro (h | h)
        · exact hnR h
        · exact hnr ((htrans s.1 hnR).mpr h)
      · rintro ⟨hso, hnRt⟩
        rw [reachDead_append_iff] at hnRt
        push_neg at hnRt
        obtain ⟨hnR, hnt⟩ := hnRt
        exact ⟨(h2 s).mpr ⟨hso, hnR⟩, fun hst => hnt ((htrans s.1 hnR).mp hst)⟩
    have hrec := ih (deleteEntityCascade st t) (R ++ [t]) step1 step2
    rw [List.foldl_cons]
    constructor
    · intro r
      rw [hrec.1 r]
      simp [List.append_assoc]
    · intro s
      rw [hrec.2 s]
      simp [List.append_assoc]

/-- Reachability from the file's parentless roots is exactly the claimed
doomed set. -/
theorem reachDead_roots_iff_doomed (rows : List ERow) (p : String) :
    ∀ u, ReachDead rows
        ((rows.filter (fun r => r.file = some p ∧ r.parent = none)).map
          (fun r => r.uuid)) u ↔
      CascadeDoomed rows p u := by
  intro u
  constructor
  · intro h
    induction h with
    | seed v hv =>
      obtain ⟨r, hr, hru⟩ := List.mem_map.mp hv
      have hf := List.of_mem_filter hr
      simp only [Bool.and_eq_true, decide_eq_true_eq] at hf
      exact hru ▸ CascadeDoomed.root r (List.mem_of_mem_filter hr) hf.1 hf.2
    | child r q hr hpq _ ih => exact CascadeDoomed.child r q hr hpq ih
  · intro h
    induction h with
    | root r hr hf hp =>
      exact ReachDead.seed r.uuid
        (List.mem_map.mpr ⟨r, List.mem_filter.mpr ⟨hr, by simp [hf, hp]⟩, rfl⟩)
    | child r q hr hpq _ ih => exact ReachDead.child r q hr hpq ih

/-! ## Claim theorems: cascade delete -/

/-- C10: `clear_file_entities(path)` deletes exactly the parentless
entities whose file equals the path together with their transitive children
(the foreign-key cascade) and the owned sub-records of the deleted
entities; every other entity row and sub-record — in particular an entity
of that file whose parent chain roots elsewhere, and entities of other
files outside the deleted subtrees — survives unchanged.  Formally,
membership after the call is membership before minus exactly the
`CascadeDoomed` set; the last conjunct instantiates the root case. -/
theorem c10_clear_file_entities_exact :
    (∀ (st : FileStore) (p : String) (r : ERow),
      r ∈ (clearFileEntities st p).entities ↔
        (r ∈ st.entities ∧ ¬ CascadeDoomed st.entities p r.uuid)) ∧
    (∀ (st : FileStore) (p : String) (s : String × String),
      s ∈ (clearFileEntities st p).subRecords ↔
        (s ∈ st.subRecords ∧ ¬ CascadeDoomed st.entities p s.1)) ∧
    (∀ (st : FileStore) (p : String) (r : ERow),
      r ∈ st.entities → r.file = some p → r.parent = none →
        r ∉ (clearFileEntities st p).entities) := by
  have main : ∀ (st : FileStore) (p : String),
      (∀ r : ERow, r ∈ (clearFileEntities st p).entities ↔
        (r ∈ st.entities ∧ ¬ CascadeDoomed st.entities p r.uuid)) ∧
      (∀ s : String × String, s ∈ (clearFileEntities st p).subRecords ↔
        (s ∈ st.subRecords ∧ ¬ CascadeDoomed st.entities p s.1)) := by
    intro st p
    have h1 : ∀ r : ERow, r ∈ st.entities ↔
        (r ∈ st.entities ∧ ¬ ReachDead st.entities [] r.uuid) :=
      fun r => ⟨fun h => ⟨h, not_reachDead_nil _ _⟩, fun h => h.1⟩
    have h2 : ∀ s : String × String, s ∈ st.subRecords ↔
        (s ∈ st.subRecords ∧ ¬ ReachDead st.entities [] s.1) :=
      fun s => ⟨fun h => ⟨h, not_reachDead_nil _ _⟩, fun h => h.1⟩
    have hfold := foldl_cascade_mem st
      ((st.entities.filter (fun r => r.file = some p ∧ r.parent = none)).map
        (fun r => r.uuid)) st [] h1 h2
    constructor
    · intro r
      have hmem := hfold.1 r
      rw [List.nil_append, reachDead_roots_iff_doomed st.entities p r.uuid] at hmem
      exact hmem
    · intro s
      have hmem := hfold.2 s
      rw [List.nil_append, reachDead_roots_iff_doomed st.entities p s.1] at hmem
      exact hmem
  refine ⟨fun st p => (main st p).1, fun st p => (main st p).2, ?_⟩
  intro st p r hr hf hp hmem
  exact (((main st p).1 r).mp hmem).2 (CascadeDoomed.root r hr hf hp)

/-- C10 witness: the parentless f.H root of the concrete store is removed
by clearing f.H. -/
theorem c10_witness :
    (⟨"R", some "f.H", none⟩ : ERow) ∉ (clearFileEntities c10Store "f.H").entities :=
  c10_clear_file_entities_exact.2.2 c10Store "f.H" ⟨"R", some "f.H", none⟩
    (by decide) rfl rfl
